import Mathlib

/-!
# Verification of the dc-counter membership-counting core

Shallow embedding of the role-resolution and aggregation logic of the
dc-counter bot variants (index.js, index6.js, index7.js, index8.js,
index9.js and the unnamed parts), together with proofs and refutations of
the specified properties.

Data model: a `Role` is an id with an integer position and a managed flag;
a `Member` is an id, a bot flag and a list of held roles.  The platform
client guarantees distinct member ids (members are stored in a Map keyed
by id) and a non-empty role list per member (every member holds the
everyone role); where a proof needs one of these facts it appears as an
explicit hypothesis.
-/

structure Role where
  id : Nat
  position : Int
  managed : Bool
deriving DecidableEq, Repr

structure Member where
  id : Nat
  isBot : Bool
  roles : List Role
deriving DecidableEq, Repr

/-- Members as cached by the index8.js / index9.js variants: only the member
id, the held role ids and the bot flag are retained (`cache.refresh`). -/
structure SimpleMember where
  id : Nat
  roles : List Nat
  isBot : Bool
deriving DecidableEq, Repr

/-- Fold that keeps the current element only when `better` says it beats the
accumulator; shared shape of `member.roles.highest` and of
`.sort((a, b) => b.position - a.position).first()`. -/
def pickBest (better : Role → Role → Bool) : List Role → Option Role
  | [] => none
  | r :: rs => some (rs.foldl (fun prev x => if better x prev then x else prev) r)

/-- `role.comparePositionTo(prev) > 0`: strictly larger position, ties broken
by the larger id (discord.js compares ids when positions are equal). -/
def roleGT (a b : Role) : Bool :=
  decide (b.position < a.position) || (a.position == b.position && decide (b.id < a.id))

/-- Strictly larger position only; used for the `.sort(...).first()` fallback,
where a stable descending sort makes the first-encountered maximal-position
role win. -/
def posGT (a b : Role) : Bool :=
  decide (b.position < a.position)

/-- `member.roles.highest` of discord.js: the maximal role by (position, id). -/
def highestRole (roles : List Role) : Option Role :=
  pickBest roleGT roles

/-- `.sort((a, b) => b.position - a.position).first()` on a role collection:
the first-encountered role of maximal position, `none` on the empty list. -/
def sortDescFirst (roles : List Role) : Option Role :=
  pickBest posGT roles

/-- `utils.getEffectiveRole(member, ignoredRoleId)` (part_002 line 325,
index8.js line 430): the highest role, except that when the highest role is
the ignored role the highest role among the remaining non-ignored roles is
returned instead (`undefined`, i.e. `none`, when no role remains). -/
def getEffectiveRole (roles : List Role) (ign : Nat) : Option Role :=
  match highestRole roles with
  | none => none
  | some h =>
    if h.id = ign then sortDescFirst (roles.filter (fun r => r.id != ign))
    else some h

/-- The effective role as computed inside `countMembersWithHighestRole`
(index6.js lines 277-291, part_002 lines 614-626): the fallback for an
ignored highest role additionally excludes managed roles. -/
def effRoleStrict (ign : Nat) (roles : List Role) : Option Role :=
  match highestRole roles with
  | none => none
  | some h =>
    if h.id = ign then sortDescFirst (roles.filter (fun r => r.id != ign && !r.managed))
    else some h

/-- `member.roles.cache.has(verifiedRoleId)`: direct membership test on the
member's role-id set. -/
def isVerifiedMember (v : Nat) (m : Member) : Bool :=
  (m.roles.map Role.id).contains v

example : highestRole [⟨1, 5, false⟩, ⟨2, 10, false⟩, ⟨3, 3, false⟩] = some ⟨2, 10, false⟩ := by
  decide

example : getEffectiveRole [⟨1, 5, false⟩, ⟨2, 10, false⟩, ⟨3, 3, false⟩] 2 = some ⟨1, 5, false⟩ := by
  decide

example : getEffectiveRole [⟨2, 10, false⟩] 2 = none := by decide

/-- Result of one `countMembersWithHighestRole` call: the returned
`{ count, memberIds }` pair together with the caller's claimed set
(`countedMembers`), whose mutation is modelled by explicit state passing. -/
structure CountResult where
  count : Nat
  memberIds : List Nat
  countedMembers : List Nat
deriving DecidableEq, Repr

/-- The effective-role test done by one iteration of the
`members.forEach` body: `true` exactly when the member's (strict) effective
role has id `roleId`. -/
def effIdEq (ign roleId : Nat) (m : Member) : Bool :=
  match effRoleStrict ign m.roles with
  | some r => r.id == roleId
  | none => false

/-- One iteration of the `members.forEach` body of
`countMembersWithHighestRole` (index6.js lines 266-301, part_002 lines
603-634): skip bots, already-claimed and unverified members, then attribute
the member when their highest role (or, when the highest role is the ignored
role, their next-highest non-ignored non-managed role) is the requested one,
recording the id in both `memberIds` and the claimed set. -/
def countStep (ign roleId v : Nat) (acc : CountResult) (m : Member) : CountResult :=
  if m.isBot || acc.countedMembers.contains m.id then acc
  else if !(isVerifiedMember v m) then acc
  else
    match highestRole m.roles with
    | none => acc
    | some h =>
      if h.id = ign then
        match sortDescFirst (m.roles.filter (fun r => r.id != ign && !r.managed)) with
        | some n =>
          if n.id = roleId then
            ⟨acc.count + 1, acc.memberIds ++ [m.id], acc.countedMembers ++ [m.id]⟩
          else acc
        | none => acc
      else if h.id = roleId then
        ⟨acc.count + 1, acc.memberIds ++ [m.id], acc.countedMembers ++ [m.id]⟩
      else acc

/-- The `members.forEach(...)` loop of `countMembersWithHighestRole`. -/
def countRun (ign roleId v : Nat) : List Member → CountResult → CountResult
  | [], acc => acc
  | m :: ms, acc => countRun ign roleId v ms (countStep ign roleId v acc m)

/-- `countMembersWithHighestRole(members, roleId, verifiedRoleId,
countedMembers)` of index6.js line 262 / part_002 line 599, with the mutation
of the caller-supplied `countedMembers` set made explicit in the result. -/
def countMembersWithHighestRole (ign : Nat) (members : List Member) (roleId v : Nat)
    (countedMembers : List Nat) : CountResult :=
  countRun ign roleId v members ⟨0, [], countedMembers⟩

/-- One per-tracked-role bucket of an aggregation pass. -/
structure RoleEntry where
  roleId : Nat
  count : Nat
  memberIds : List Nat
deriving DecidableEq, Repr

/-- The aggregation loop of the index6.js count handler (lines 417-433) and
of `updateChannelNames` (lines 330-355): `countMembersWithHighestRole` is
called once per tracked role id, all calls sharing one claimed set. -/
def aggregatePass (ign v : Nat) (members : List Member) :
    List Nat → List Nat → List RoleEntry × List Nat
  | [], cm => ([], cm)
  | roleId :: rest, cm =>
    let r := countMembersWithHighestRole ign members roleId v cm
    let next := aggregatePass ign v members rest r.countedMembers
    (⟨roleId, r.count, r.memberIds⟩ :: next.1, next.2)

/-- Sum of the per-role bucket counts of a pass. -/
def sumCounts (entries : List RoleEntry) : Nat :=
  (entries.map RoleEntry.count).sum

/-- `members.filter(member => !member.user.bot).size`: the total non-bot
member count, as computed at every call site. -/
def totalMembers (members : List Member) : Nat :=
  (members.filter (fun m => !m.isBot)).length

/-- `members.filter(member => !member.roles.cache.has(verifiedRoleId) &&
!member.user.bot).size` (index6.js lines 156-158, part_000 lines 191-193):
the unverified-member count. -/
def unverifiedCount (members : List Member) (v : Nat) : Nat :=
  (members.filter (fun m => !(isVerifiedMember v m) && !m.isBot)).length

/-- Specification-side count of non-bot members holding the verified role;
used to state the verified/unverified partition. -/
def verifiedMemberCount (members : List Member) (v : Nat) : Nat :=
  (members.filter (fun m => !m.isBot && isVerifiedMember v m)).length

/-- The per-member test of the inline `membersWithRole` filters (index.js
lines 51-68, the first program of index6.js lines 180-196, part_001,
part_003): the member's highest role is the requested one, or the highest
role is the ignored role and the next-highest non-ignored role is the
requested one.  No bot check.  (The `none` branch of `highestRole` is
unreachable for platform snapshots: every member holds the everyone role.) -/
def highestRoleMatches (ign roleId : Nat) (m : Member) : Bool :=
  match highestRole m.roles with
  | none => false
  | some h =>
    if h.id = roleId then true
    else if h.id = ign then
      match sortDescFirst (m.roles.filter (fun r => r.id != ign)) with
      | some n => n.id == roleId
      | none => false
    else false

/-- The per-role count of the index.js count handler (lines 51-70):
`guild.members.cache.filter(member => ...).size` with no bot exclusion. -/
def indexJsRoleCount (ign : Nat) (members : List Member) (roleId : Nat) : Nat :=
  (members.filter (highestRoleMatches ign roleId)).length

/-- `getRoleMemberCount(members, role)` of index7.js lines 142-158: the same
highest-role filter but with bots excluded first. -/
def getRoleMemberCount (ign : Nat) (members : List Member) (roleId : Nat) : Nat :=
  (members.filter (fun m => !m.isBot && highestRoleMatches ign roleId m)).length

/-- A per-role report line keyed by role id (the display name is external). -/
structure SimpleEntry where
  roleId : Nat
  count : Nat
deriving DecidableEq, Repr

/-- The per-role report lines of the first index6.js count handler (lines
169-212): a tracked role id missing from the role catalogue is skipped
(`if (!role) { ... continue; }`) and produces no entry. -/
def index6CountEntries (ign : Nat) (catalogue : List Nat) (members : List Member)
    (tracked : List Nat) : List SimpleEntry :=
  tracked.filterMap (fun roleId =>
    if catalogue.contains roleId then
      some ⟨roleId, indexJsRoleCount ign members roleId⟩
    else none)

/-- The per-role report lines of the index9.js count command (lines 242-254):
direct role-membership counting on cached simplified members, skipping
tracked ids missing from the catalogue (`if (!role) continue;`). -/
def index9CountEntries (catalogue : List Nat) (members : List SimpleMember)
    (tracked : List Nat) : List SimpleEntry :=
  tracked.filterMap (fun roleId =>
    if catalogue.contains roleId then
      some ⟨roleId, (members.filter (fun m => m.roles.contains roleId && !m.isBot)).length⟩
    else none)

/-- The per-role buckets of the index8.js count command (lines 555-568):
`[...members.values()].filter(m => m.roles.includes(roleId) && !m.isBot)`
per tracked role, with no claimed set. -/
def index8CountEntries (catalogue : List Nat) (members : List SimpleMember)
    (tracked : List Nat) : List RoleEntry :=
  tracked.filterMap (fun roleId =>
    if catalogue.contains roleId then
      let ms := members.filter (fun m => m.roles.contains roleId && !m.isBot)
      some ⟨roleId, ms.length, ms.map SimpleMember.id⟩
    else none)

/-- JavaScript division as used by the percentage computations: dividing by
zero produces a non-finite number (NaN for 0/0, signed infinity otherwise),
modelled as `none`; all other quotients are exact rationals.  The
`toFixed(...)` rendering is external display formatting. -/
def jsDiv (a b : ℚ) : Option ℚ :=
  if b = 0 then none else some (a / b)

/-- `utils.calculatePercentage(part, total)` of index8.js lines 441-443 /
part_002 lines 336-338 / index9.js lines 162-164, and the inline
`((count / totalMembersCount) * 100)` computations (index6.js lines 161 and
200): `(part / total) * 100`, with no guard for `total == 0`. -/
def calculatePercentage (part total : ℚ) : Option ℚ :=
  (jsDiv part total).map (fun x => x * 100)

/-- The mutable module-level `MemberStats` instance of index7.js (lines
68-83): `clear()` empties `countedMembers` and `roleStats` but keeps
`totalMembers`. -/
structure MemberStats where
  totalMembers : Nat
  countedMembers : List Nat
  roleStats : List (Nat × Nat)
deriving DecidableEq, Repr

/-- `stats.clear()` of index7.js lines 77-80. -/
def statsClear (s : MemberStats) : MemberStats :=
  { s with countedMembers := [], roleStats := [] }

/-- One iteration of the `membersWithRole` filter callback of the index7.js
count handler (lines 213-237): bots and already-counted members are skipped,
the highest-role test uses the non-managed-agnostic fallback, and a counted
member is recorded in `stats.countedMembers` and `stats.roleStats` (the role
name stored there is modelled by the role id). -/
def index7RoleStep (ign roleId : Nat) (acc : Nat × MemberStats) (m : Member) :
    Nat × MemberStats :=
  if m.isBot || acc.2.countedMembers.contains m.id then acc
  else if highestRoleMatches ign roleId m then
    (acc.1 + 1,
     { acc.2 with
        countedMembers := acc.2.countedMembers ++ [m.id],
        roleStats := acc.2.roleStats ++ [(m.id, roleId)] })
  else acc

/-- One per-role report line of the index7.js count handler. -/
structure Index7Entry where
  roleId : Nat
  count : Nat
  percentage : Option ℚ
deriving DecidableEq, Repr

/-- The `for (const roleId of countRoles)` loop of the index7.js count
handler (lines 206-243): tracked ids missing from the catalogue are skipped,
each present role is counted through the stats-mutating filter, and the
percentage divides by `stats.totalMembers`. -/
def index7CountRoles (ign : Nat) (catalogue : List Nat) (members : List Member) :
    List Nat → MemberStats → List Index7Entry × MemberStats
  | [], s => ([], s)
  | roleId :: rest, s =>
    if catalogue.contains roleId then
      let res := members.foldl (index7RoleStep ign roleId) (0, s)
      let next := index7CountRoles ign catalogue members rest res.2
      (⟨roleId, res.1, calculatePercentage (res.1 : ℚ) (res.2.totalMembers : ℚ)⟩ :: next.1,
       next.2)
    else index7CountRoles ign catalogue members rest s

/-- The reply assembled by the index7.js count handler. -/
structure Index7Output where
  totalMembers : Nat
  unverifiedMembers : Nat
  unverifiedPercentage : Option ℚ
  entries : List Index7Entry
deriving DecidableEq, Repr

/-- The index7.js `!count` handler (lines 188-243) as a function of the
member snapshot and the incoming global `stats` state: `stats.clear()`,
recompute `stats.totalMembers`, compute the unverified count, then run the
per-role loop; returns the reply data and the final stats state. -/
def index7Handler (ign v : Nat) (catalogue : List Nat) (members : List Member)
    (countRoles : List Nat) (s : MemberStats) : Index7Output × MemberStats :=
  let s1 := statsClear s
  let total := (members.filter (fun m => !m.isBot)).length
  let s2 := { s1 with totalMembers := total }
  let unverified := (members.filter (fun m => !m.isBot && !(isVerifiedMember v m))).length
  let res := index7CountRoles ign catalogue members countRoles s2
  (⟨total, unverified, calculatePercentage (unverified : ℚ) (total : ℚ), res.1⟩, res.2)

theorem foldl_pick_mem (better : Role → Role → Bool) :
    ∀ (rs : List Role) (r : Role),
      rs.foldl (fun prev x => if better x prev then x else prev) r ∈ r :: rs := by
  intro rs
  induction rs with
  | nil => intro r; simp
  | cons x xs ih =>
    intro r
    simp only [List.foldl_cons]
    rcases List.mem_cons.mp (ih (if better x r then x else r)) with h1 | h1
    · rw [h1]
      by_cases hb : better x r = true
      · simp [hb]
      · simp [hb]
    · simp [h1]

theorem foldl_pick_ge (better : Role → Role → Bool)
    (hkeep : ∀ x p : Role, better x p = false → x.position ≤ p.position)
    (htake : ∀ x p : Role, better x p = true → p.position ≤ x.position) :
    ∀ (rs : List Role) (r : Role), ∀ y ∈ r :: rs,
      y.position ≤ (rs.foldl (fun prev x => if better x prev then x else prev) r).position := by
  intro rs
  induction rs with
  | nil =>
    intro r y hy
    simp at hy
    subst hy
    simp
  | cons x xs ih =>
    intro r y hy
    simp only [List.foldl_cons]
    have hyc : y = r ∨ y = x ∨ y ∈ xs := by simpa using hy
    by_cases hb : better x r = true
    · rw [if_pos hb]
      rcases hyc with h | h | h
      · rw [h]
        exact le_trans (htake _ _ hb) (ih x x (by simp))
      · rw [h]
        exact ih x x (by simp)
      · exact ih x y (by simp [h])
    · rw [if_neg hb]
      rcases hyc with h | h | h
      · rw [h]
        exact ih r r (by simp)
      · rw [h]
        exact le_trans (hkeep _ _ (Bool.eq_false_iff.mpr hb)) (ih r r (by simp))
      · exact ih r y (by simp [h])

theorem roleGT_keep (x p : Role) (h : roleGT x p = false) : x.position ≤ p.position := by
  by_contra hlt
  push_neg at hlt
  simp [roleGT, hlt] at h

theorem roleGT_take (x p : Role) (h : roleGT x p = true) : p.position ≤ x.position := by
  simp [roleGT] at h
  rcases h with h | ⟨h1, _⟩
  · exact le_of_lt h
  · rw [h1]

theorem posGT_keep (x p : Role) (h : posGT x p = false) : x.position ≤ p.position := by
  by_contra hlt
  push_neg at hlt
  simp [posGT, hlt] at h

theorem posGT_take (x p : Role) (h : posGT x p = true) : p.position ≤ x.position := by
  simp [posGT] at h
  exact le_of_lt h

theorem highestRole_none_iff (roles : List Role) : highestRole roles = none ↔ roles = [] := by
  cases roles <;> simp [highestRole, pickBest]

theorem highestRole_spec {roles : List Role} {h : Role} (hh : highestRole roles = some h) :
    h ∈ roles ∧ ∀ r ∈ roles, r.position ≤ h.position := by
  cases roles with
  | nil => simp [highestRole, pickBest] at hh
  | cons r rs =>
    simp only [highestRole, pickBest, Option.some.injEq] at hh
    subst hh
    exact ⟨foldl_pick_mem roleGT rs r, fun y hy =>
      foldl_pick_ge roleGT roleGT_keep roleGT_take rs r y hy⟩

theorem sortDescFirst_spec {roles : List Role} {h : Role} (hh : sortDescFirst roles = some h) :
    h ∈ roles ∧ ∀ r ∈ roles, r.position ≤ h.position := by
  cases roles with
  | nil => simp [sortDescFirst, pickBest] at hh
  | cons r rs =>
    simp only [sortDescFirst, pickBest, Option.some.injEq] at hh
    subst hh
    exact ⟨foldl_pick_mem posGT rs r, fun y hy =>
      foldl_pick_ge posGT posGT_keep posGT_take rs r y hy⟩

theorem sortDescFirst_none_iff (roles : List Role) : sortDescFirst roles = none ↔ roles = [] := by
  cases roles <;> simp [sortDescFirst, pickBest]

/-- A member passes every check of the `countStep` body against claimed set
`cm`: not a bot, not yet claimed, verified, and their strict effective role
is the requested one. -/
def eligible (ign roleId v : Nat) (cm : List Nat) (m : Member) : Bool :=
  !m.isBot && !(cm.contains m.id) && isVerifiedMember v m && effIdEq ign roleId m

theorem countStep_eq (ign roleId v : Nat) (acc : CountResult) (m : Member) :
    countStep ign roleId v acc m =
      if eligible ign roleId v acc.countedMembers m then
        ⟨acc.count + 1, acc.memberIds ++ [m.id], acc.countedMembers ++ [m.id]⟩
      else acc := by
  unfold countStep eligible effIdEq effRoleStrict
  cases hbot : m.isBot with
  | true => simp [hbot]
  | false =>
    cases hcm : acc.countedMembers.contains m.id with
    | true => simp [hbot, hcm]
    | false =>
      cases hv : isVerifiedMember v m with
      | false => simp [hbot, hcm, hv]
      | true =>
        cases hh : highestRole m.roles with
        | none => simp [hbot, hcm, hv, hh]
        | some h =>
          by_cases hig : h.id = ign
          · cases hn : sortDescFirst (m.roles.filter (fun r => r.id != ign && !r.managed)) with
            | none => simp [hbot, hcm, hv, hh, hig, hn]
            | some n =>
              by_cases hnr : n.id = roleId
              · simp [hbot, hcm, hv, hh, hig, hn, hnr]
              · simp [hbot, hcm, hv, hh, hig, hn, hnr]
          · by_cases hhr : h.id = roleId
            · subst hhr
              simp [hbot, hcm, hv, hh, hig]
            · simp [hbot, hcm, hv, hh, hig, hhr]

/-- The member ids newly claimed by one `countMembersWithHighestRole` call,
in processing order. -/
def newIds (ign roleId v : Nat) (cm : List Nat) : List Member → List Nat
  | [] => []
  | m :: ms =>
    if eligible ign roleId v cm m then m.id :: newIds ign roleId v (cm ++ [m.id]) ms
    else newIds ign roleId v cm ms

theorem countRun_eq (ign roleId v : Nat) :
    ∀ (ms : List Member) (acc : CountResult),
      countRun ign roleId v ms acc =
        ⟨acc.count + (newIds ign roleId v acc.countedMembers ms).length,
         acc.memberIds ++ newIds ign roleId v acc.countedMembers ms,
         acc.countedMembers ++ newIds ign roleId v acc.countedMembers ms⟩ := by
  intro ms
  induction ms with
  | nil => intro acc; simp [countRun, newIds]
  | cons m ms ih =>
    intro acc
    rw [countRun, countStep_eq]
    by_cases he : eligible ign roleId v acc.countedMembers m = true
    · rw [if_pos he, ih]
      have hstep : newIds ign roleId v acc.countedMembers (m :: ms)
          = m.id :: newIds ign roleId v (acc.countedMembers ++ [m.id]) ms := by
        rw [newIds, if_pos he]
      rw [hstep]
      simp only [CountResult.mk.injEq, List.length_cons, List.append_assoc,
        List.singleton_append, and_true, true_and]
      omega
    · rw [if_neg he, ih]
      have hstep : newIds ign roleId v acc.countedMembers (m :: ms)
          = newIds ign roleId v acc.countedMembers ms := by
        rw [newIds, if_neg he]
      rw [hstep]

theorem contains_append (l1 l2 : List Nat) (x : Nat) :
    (l1 ++ l2).contains x = (l1.contains x || l2.contains x) := by
  induction l1 with
  | nil => simp
  | cons a l ih => simp [List.contains_cons, ih, Bool.or_assoc]

theorem eligible_parts {ign roleId v : Nat} {cm : List Nat} {m : Member}
    (he : eligible ign roleId v cm m = true) :
    m.isBot = false ∧ m.id ∉ cm ∧ isVerifiedMember v m = true ∧
      effIdEq ign roleId m = true := by
  simp [eligible] at he
  exact ⟨he.1.1.1, he.1.1.2, he.1.2, he.2⟩

theorem eligible_contains_false {ign roleId v : Nat} {cm : List Nat} {m : Member}
    (he : eligible ign roleId v cm m = true) : cm.contains m.id = false := by
  simpa using (eligible_parts he).2.1

theorem eligible_not_bot {ign roleId v : Nat} {cm : List Nat} {m : Member}
    (he : eligible ign roleId v cm m = true) : m.isBot = false :=
  (eligible_parts he).1

theorem eligible_verified {ign roleId v : Nat} {cm : List Nat} {m : Member}
    (he : eligible ign roleId v cm m = true) : isVerifiedMember v m = true :=
  (eligible_parts he).2.2.1

theorem eligible_eff {ign roleId v : Nat} {cm : List Nat} {m : Member}
    (he : eligible ign roleId v cm m = true) : effIdEq ign roleId m = true :=
  (eligible_parts he).2.2.2

theorem newIds_not_mem (ign roleId v : Nat) :
    ∀ (ms : List Member) (cm : List Nat), ∀ x ∈ newIds ign roleId v cm ms, x ∉ cm := by
  intro ms
  induction ms with
  | nil => intro cm x hx; simp [newIds] at hx
  | cons m ms ih =>
    intro cm x hx
    by_cases he : eligible ign roleId v cm m = true
    · rw [newIds, if_pos he] at hx
      rcases List.mem_cons.mp hx with h1 | h1
      · subst h1
        intro hmem
        have hc := eligible_contains_false he
        simp at hc
        exact hc hmem
      · intro hmem
        exact ih (cm ++ [m.id]) x h1 (List.mem_append_left _ hmem)
    · rw [newIds, if_neg he] at hx
      exact ih cm x hx

theorem newIds_nodup (ign roleId v : Nat) :
    ∀ (ms : List Member) (cm : List Nat), (newIds ign roleId v cm ms).Nodup := by
  intro ms
  induction ms with
  | nil => intro cm; simp [newIds]
  | cons m ms ih =>
    intro cm
    by_cases he : eligible ign roleId v cm m = true
    · rw [newIds, if_pos he]
      refine List.nodup_cons.mpr ⟨?_, ih (cm ++ [m.id])⟩
      intro hmem
      exact newIds_not_mem ign roleId v ms (cm ++ [m.id]) m.id hmem
        (List.mem_append_right _ (by simp))
    · rw [newIds, if_neg he]
      exact ih cm

theorem eligible_congr {ign roleId v : Nat} {cm1 cm2 : List Nat} {m : Member}
    (h : cm1.contains m.id = cm2.contains m.id) :
    eligible ign roleId v cm1 m = eligible ign roleId v cm2 m := by
  simp at h
  simp [eligible, h]

theorem newIds_congr (ign roleId v : Nat) :
    ∀ (ms : List Member) (cm1 cm2 : List Nat),
      (∀ m ∈ ms, cm1.contains m.id = cm2.contains m.id) →
      newIds ign roleId v cm1 ms = newIds ign roleId v cm2 ms := by
  intro ms
  induction ms with
  | nil => intro cm1 cm2 _; simp [newIds]
  | cons m ms ih =>
    intro cm1 cm2 h
    have hm := h m (List.mem_cons_self m ms)
    have hel : eligible ign roleId v cm1 m = eligible ign roleId v cm2 m :=
      eligible_congr hm
    by_cases he : eligible ign roleId v cm1 m = true
    · rw [newIds, if_pos he, newIds, if_pos (hel ▸ he)]
      congr 1
      refine ih (cm1 ++ [m.id]) (cm2 ++ [m.id]) ?_
      intro m' hm'
      rw [contains_append, contains_append, h m' (List.mem_cons_of_mem m hm')]
    · rw [newIds, if_neg he, newIds, if_neg (hel ▸ he)]
      exact ih cm1 cm2 (fun m' hm' => h m' (List.mem_cons_of_mem m hm'))

theorem newIds_eq_filter (ign roleId v : Nat) :
    ∀ (ms : List Member), (ms.map Member.id).Nodup →
      ∀ cm, newIds ign roleId v cm ms
        = (ms.filter (eligible ign roleId v cm)).map Member.id := by
  intro ms
  induction ms with
  | nil => intro _ cm; simp [newIds]
  | cons m ms ih =>
    intro hnd cm
    have hnd' : (ms.map Member.id).Nodup := (List.nodup_cons.mp (by simpa using hnd)).2
    have hhead : m.id ∉ ms.map Member.id := (List.nodup_cons.mp (by simpa using hnd)).1
    by_cases he : eligible ign roleId v cm m = true
    · rw [newIds, if_pos he]
      have hcg : newIds ign roleId v (cm ++ [m.id]) ms = newIds ign roleId v cm ms := by
        refine newIds_congr ign roleId v ms _ _ ?_
        intro m' hm'
        have hne : m'.id ≠ m.id := by
          intro hcontra
          exact hhead (hcontra ▸ List.mem_map_of_mem Member.id hm')
        rw [contains_append]
        simp [List.contains_cons, hne]
      rw [hcg, ih hnd' cm]
      simp [List.filter_cons, he]
    · rw [newIds, if_neg he]
      rw [ih hnd' cm]
      simp [List.filter_cons, Bool.eq_false_iff.mpr he]

theorem mem_newIds (ign roleId v : Nat) :
    ∀ (ms : List Member) (cm : List Nat) (x : Nat), x ∈ newIds ign roleId v cm ms →
      ∃ m ∈ ms, m.id = x ∧ m.isBot = false ∧ isVerifiedMember v m = true ∧
        effIdEq ign roleId m = true := by
  intro ms
  induction ms with
  | nil => intro cm x hx; simp [newIds] at hx
  | cons m ms ih =>
    intro cm x hx
    by_cases he : eligible ign roleId v cm m = true
    · rw [newIds, if_pos he] at hx
      rcases List.mem_cons.mp hx with h1 | h1
      · exact ⟨m, List.mem_cons_self m ms, h1.symm, eligible_not_bot he,
          eligible_verified he, eligible_eff he⟩
      · obtain ⟨m', hm', rest⟩ := ih (cm ++ [m.id]) x h1
        exact ⟨m', List.mem_cons_of_mem m hm', rest⟩
    · rw [newIds, if_neg he] at hx
      obtain ⟨m', hm', rest⟩ := ih cm x hx
      exact ⟨m', List.mem_cons_of_mem m hm', rest⟩

theorem countP_congr_mem {α : Type} (p q : α → Bool) :
    ∀ l : List α, (∀ a ∈ l, p a = q a) → l.countP p = l.countP q := by
  intro l
  induction l with
  | nil => intro _; simp
  | cons a t ih =>
    intro h
    rw [List.countP_cons, List.countP_cons, h a (List.mem_cons_self a t),
      ih (fun x hx => h x (List.mem_cons_of_mem a hx))]

theorem countP_or_disjoint {α : Type} (p q : α → Bool) :
    ∀ l : List α, (∀ a ∈ l, ¬(p a = true ∧ q a = true)) →
      l.countP (fun a => p a || q a) = l.countP p + l.countP q := by
  intro l
  induction l with
  | nil => intro _; simp
  | cons a t ih =>
    intro h
    rw [List.countP_cons, List.countP_cons, List.countP_cons,
      ih (fun x hx => h x (List.mem_cons_of_mem a hx))]
    have hd := h a (List.mem_cons_self a t)
    cases hp : p a <;> cases hq : q a <;> simp_all <;> omega

theorem countP_mono_mem {α : Type} (p q : α → Bool) :
    ∀ l : List α, (∀ a ∈ l, p a = true → q a = true) → l.countP p ≤ l.countP q := by
  intro l
  induction l with
  | nil => intro _; simp
  | cons a t ih =>
    intro h
    rw [List.countP_cons, List.countP_cons]
    have ht := ih (fun x hx => h x (List.mem_cons_of_mem a hx))
    cases hp : p a
    · simp
      omega
    · rw [h a (List.mem_cons_self a t) hp]
      simp
      omega

theorem countP_eq_iff {α : Type} (p q : α → Bool) :
    ∀ l : List α, (∀ a ∈ l, p a = true → q a = true) →
      (l.countP p = l.countP q ↔ ∀ a ∈ l, q a = true → p a = true) := by
  intro l
  induction l with
  | nil => intro _; simp
  | cons a t ih =>
    intro h
    have ht := ih (fun x hx => h x (List.mem_cons_of_mem a hx))
    have hle := countP_mono_mem p q t (fun x hx => h x (List.mem_cons_of_mem a hx))
    rw [List.countP_cons, List.countP_cons]
    cases hq : q a
    · have hp : p a = false := by
        cases hp : p a
        · rfl
        · exact absurd (h a (List.mem_cons_self a t) hp) (by simp [hq])
      simpa [hp, hq] using ht
    · cases hp : p a
      · simp [hp, hq]
        omega
      · simpa [hp, hq] using ht

/-- The member's strict effective-role id lies in the given tracked list. -/
def effIdMem (ign : Nat) (tracked : List Nat) (m : Member) : Bool :=
  match effRoleStrict ign m.roles with
  | some r => tracked.contains r.id
  | none => false

theorem effIdMem_nil (ign : Nat) (m : Member) : effIdMem ign [] m = false := by
  cases h : effRoleStrict ign m.roles <;> simp [effIdMem, h]

theorem effIdMem_cons (ign t : Nat) (ts : List Nat) (m : Member) :
    effIdMem ign (t :: ts) m = (effIdEq ign t m || effIdMem ign ts m) := by
  cases h : effRoleStrict ign m.roles with
  | none => simp [effIdMem, effIdEq, h]
  | some r =>
    simp only [effIdMem, effIdEq, h, List.contains_cons]

theorem boolSplitEq : ∀ (b c v e s : Bool),
    (!b && !c && v && (e || s))
      = ((!b && !c && v && e) || (!b && !(c || (!b && !c && v && e)) && v && s)) := by
  decide

theorem boolSplitDisj : ∀ (b c v e s : Bool),
    ((!b && !c && v && e) && (!b && !(c || (!b && !c && v && e)) && v && s)) = false := by
  decide

theorem mem_newIds_iff (ign t v : Nat) {members : List Member}
    (hnd : (members.map Member.id).Nodup) (cm : List Nat) {m : Member}
    (hm : m ∈ members) :
    m.id ∈ newIds ign t v cm members ↔ eligible ign t v cm m = true := by
  rw [newIds_eq_filter ign t v members hnd cm]
  constructor
  · intro hx
    obtain ⟨m1, hm1, hid⟩ := List.mem_map.mp hx
    obtain ⟨hm1mem, hm1el⟩ := List.mem_filter.mp hm1
    have : m1 = m := List.inj_on_of_nodup_map hnd hm1mem hm hid
    rw [← this]
    exact hm1el
  · intro hel
    exact List.mem_map_of_mem Member.id (List.mem_filter.mpr ⟨hm, hel⟩)

theorem contains_cm_append_newIds (ign t v : Nat) {members : List Member}
    (hnd : (members.map Member.id).Nodup) (cm : List Nat) {m : Member}
    (hm : m ∈ members) :
    (cm ++ newIds ign t v cm members).contains m.id
      = (cm.contains m.id || eligible ign t v cm m) := by
  rw [contains_append]
  have hnew : (newIds ign t v cm members).contains m.id = eligible ign t v cm m := by
    cases hel : eligible ign t v cm m
    · have := (mem_newIds_iff ign t v hnd cm hm).not.mpr (by simp [hel])
      simpa using this
    · have := (mem_newIds_iff ign t v hnd cm hm).mpr hel
      simpa using this
  rw [hnew]

theorem sumCounts_nil : sumCounts [] = 0 := rfl

theorem sumCounts_cons (rid cnt : Nat) (mids : List Nat) (l : List RoleEntry) :
    sumCounts (⟨rid, cnt, mids⟩ :: l) = cnt + sumCounts l := by
  simp [sumCounts]

theorem countMembersWithHighestRole_eq (ign : Nat) (members : List Member) (t v : Nat)
    (cm : List Nat) :
    countMembersWithHighestRole ign members t v cm
      = ⟨(newIds ign t v cm members).length, newIds ign t v cm members,
         cm ++ newIds ign t v cm members⟩ := by
  rw [countMembersWithHighestRole, countRun_eq]
  simp

theorem aggregatePass_fst_cons (ign v t : Nat) (ts : List Nat) (members : List Member)
    (cm : List Nat) :
    (aggregatePass ign v members (t :: ts) cm).1
      = ⟨t, (countMembersWithHighestRole ign members t v cm).count,
          (countMembersWithHighestRole ign members t v cm).memberIds⟩ ::
        (aggregatePass ign v members ts
          (countMembersWithHighestRole ign members t v cm).countedMembers).1 := rfl

theorem aggregatePass_sum (ign v : Nat) (members : List Member)
    (hnd : (members.map Member.id).Nodup) :
    ∀ (tracked cm : List Nat),
      sumCounts (aggregatePass ign v members tracked cm).1
        = members.countP (fun m => !m.isBot && !(cm.contains m.id) &&
            isVerifiedMember v m && effIdMem ign tracked m) := by
  intro tracked
  induction tracked with
  | nil =>
    intro cm
    have h0 : (aggregatePass ign v members [] cm).1 = [] := rfl
    rw [h0, sumCounts_nil]
    symm
    rw [List.countP_eq_zero]
    intro m hm
    simp [effIdMem_nil]
  | cons t ts ih =>
    intro cm
    have h1 : (aggregatePass ign v members (t :: ts) cm).1
        = (⟨t, (newIds ign t v cm members).length, newIds ign t v cm members⟩ : RoleEntry) ::
          (aggregatePass ign v members ts (cm ++ newIds ign t v cm members)).1 := by
      simp only [aggregatePass_fst_cons, countMembersWithHighestRole_eq]
    rw [h1, sumCounts_cons]
    rw [ih (cm ++ newIds ign t v cm members)]
    have hlen : (newIds ign t v cm members).length
        = members.countP (eligible ign t v cm) := by
      rw [newIds_eq_filter ign t v members hnd cm, List.length_map,
        List.countP_eq_length_filter]
    rw [hlen]
    have hsplit : members.countP
        (fun m => !m.isBot && !(cm.contains m.id) && isVerifiedMember v m &&
          effIdMem ign (t :: ts) m)
        = members.countP (fun m => eligible ign t v cm m ||
            (!m.isBot && !((cm ++ newIds ign t v cm members).contains m.id) &&
              isVerifiedMember v m && effIdMem ign ts m)) := by
      apply countP_congr_mem
      intro m hm
      rw [effIdMem_cons]
      rw [contains_cm_append_newIds ign t v hnd cm hm]
      simp only [eligible]
      exact boolSplitEq m.isBot (cm.contains m.id) (isVerifiedMember v m)
        (effIdEq ign t m) (effIdMem ign ts m)
    have hdisj : ∀ m ∈ members, ¬((eligible ign t v cm m) = true ∧
        (!m.isBot && !((cm ++ newIds ign t v cm members).contains m.id) &&
          isVerifiedMember v m && effIdMem ign ts m) = true) := by
      intro m hm hcontra
      obtain ⟨ha, hb⟩ := hcontra
      rw [contains_cm_append_newIds ign t v hnd cm hm] at hb
      simp only [eligible] at ha hb
      have hfalse := boolSplitDisj m.isBot (cm.contains m.id) (isVerifiedMember v m)
        (effIdEq ign t m) (effIdMem ign ts m)
      rcases Bool.and_eq_false_iff.mp hfalse with hf | hf
      · rw [ha] at hf
        cases hf
      · rw [hb] at hf
        cases hf
    rw [hsplit, countP_or_disjoint _ _ members hdisj]

theorem aggregatePass_sum_start (ign v : Nat) (members : List Member)
    (hnd : (members.map Member.id).Nodup) (tracked : List Nat) :
    sumCounts (aggregatePass ign v members tracked []).1
      = members.countP (fun m => !m.isBot && isVerifiedMember v m &&
          effIdMem ign tracked m) := by
  rw [aggregatePass_sum ign v members hnd tracked []]
  apply countP_congr_mem
  intro m hm
  simp only [List.contains_nil, Bool.not_false, Bool.and_true]

theorem unverifiedCount_eq_countP (members : List Member) (v : Nat) :
    unverifiedCount members v
      = members.countP (fun m => !(isVerifiedMember v m) && !m.isBot) := by
  rw [unverifiedCount, List.countP_eq_length_filter]

theorem totalMembers_eq_countP (members : List Member) :
    totalMembers members = members.countP (fun m => !m.isBot) := by
  rw [totalMembers, List.countP_eq_length_filter]

theorem boolRecDisj : ∀ b v e : Bool,
    ((!b && v && e) && (!v && !b)) = false := by
  decide

theorem boolRecImp : ∀ b v e : Bool,
    ((!b && v && e) || (!v && !b)) = true → (!b) = true := by
  decide

theorem boolRecIff : ∀ b v e : Bool,
    (((!b) = true → ((!b && v && e) || (!v && !b)) = true) ↔
      (b = false → v = true → e = true)) := by
  decide

/-- C1 (amended): for the verified-restricted aggregation built on
`countMembersWithHighestRole` (index6.js count handler lines 414-433,
part_002 lines 752-768, `updateChannelNames` of both), the sum of the
per-tracked-role counts plus the unverified count is at most the total
non-bot member count, with equality exactly when every non-bot verified
member's strict effective role lies in the tracked role list.  (Member ids
are distinct in a platform snapshot, hence the `Nodup` hypothesis.) -/
theorem C1_amended_reconciliation (ign v : Nat) (members : List Member)
    (tracked : List Nat) (hnd : (members.map Member.id).Nodup) :
    sumCounts (aggregatePass ign v members tracked []).1 + unverifiedCount members v
        ≤ totalMembers members ∧
    (sumCounts (aggregatePass ign v members tracked []).1 + unverifiedCount members v
        = totalMembers members ↔
      ∀ m ∈ members, m.isBot = false → isVerifiedMember v m = true →
        effIdMem ign tracked m = true) := by
  rw [aggregatePass_sum_start ign v members hnd tracked, unverifiedCount_eq_countP,
    totalMembers_eq_countP]
  have hdisj : ∀ m ∈ members,
      ¬((fun m => !m.isBot && isVerifiedMember v m && effIdMem ign tracked m) m = true ∧
        (fun m => !(isVerifiedMember v m) && !m.isBot) m = true) := by
    intro m hm hcontra
    obtain ⟨ha, hb⟩ := hcontra
    simp only [] at ha hb
    have hfalse := boolRecDisj m.isBot (isVerifiedMember v m) (effIdMem ign tracked m)
    rcases Bool.and_eq_false_iff.mp hfalse with hf | hf
    · rw [ha] at hf
      cases hf
    · rw [hb] at hf
      cases hf
  have hor := countP_or_disjoint
    (fun m => !m.isBot && isVerifiedMember v m && effIdMem ign tracked m)
    (fun m => !(isVerifiedMember v m) && !m.isBot) members hdisj
  have himp : ∀ m ∈ members,
      (fun m => (!m.isBot && isVerifiedMember v m && effIdMem ign tracked m) ||
        (!(isVerifiedMember v m) && !m.isBot)) m = true →
      (fun m => !m.isBot) m = true := by
    intro m hm h
    exact boolRecImp m.isBot (isVerifiedMember v m) (effIdMem ign tracked m) h
  have hmono := countP_mono_mem
    (fun m => (!m.isBot && isVerifiedMember v m && effIdMem ign tracked m) ||
      (!(isVerifiedMember v m) && !m.isBot))
    (fun m => !m.isBot) members himp
  have hiff := countP_eq_iff
    (fun m => (!m.isBot && isVerifiedMember v m && effIdMem ign tracked m) ||
      (!(isVerifiedMember v m) && !m.isBot))
    (fun m => !m.isBot) members himp
  rw [← hor]
  constructor
  · exact hmono
  · rw [hiff]
    constructor
    · intro h m hm hb hv
      exact (boolRecIff m.isBot (isVerifiedMember v m) (effIdMem ign tracked m)).mp
        (h m hm) hb hv
    · intro h m hm
      exact (boolRecIff m.isBot (isVerifiedMember v m) (effIdMem ign tracked m)).mpr
        (fun hb hv => h m hm hb hv) 

/-- C1 (counterexample): the index7.js count handler (lines 206-243) counts
unverified members into role buckets, so for a snapshot with one non-bot
unverified member whose highest role is tracked, the per-role sum plus the
unverified count exceeds the total non-bot count (1 + 1 > 1), refuting the
claimed inequality for that cited aggregation pass. -/
theorem C1_counterexample_index7 :
    ¬ ((((index7Handler 99 50 [10] [⟨1, false, [⟨10, 5, false⟩]⟩] [10]
            ⟨0, [], []⟩).1.entries.map Index7Entry.count).sum
        + (index7Handler 99 50 [10] [⟨1, false, [⟨10, 5, false⟩]⟩] [10]
            ⟨0, [], []⟩).1.unverifiedMembers
        ≤ (index7Handler 99 50 [10] [⟨1, false, [⟨10, 5, false⟩]⟩] [10]
            ⟨0, [], []⟩).1.totalMembers)) := by
  decide

/-- Witness for `C1_amended_reconciliation` at a concrete snapshot. -/
theorem C1_amended_reconciliation_witness :
    sumCounts (aggregatePass 99 50 [⟨1, false, [⟨50, 1, false⟩, ⟨10, 5, false⟩]⟩,
        ⟨2, false, []⟩] [10] []).1
      + unverifiedCount [⟨1, false, [⟨50, 1, false⟩, ⟨10, 5, false⟩]⟩, ⟨2, false, []⟩] 50
      ≤ totalMembers [⟨1, false, [⟨50, 1, false⟩, ⟨10, 5, false⟩]⟩, ⟨2, false, []⟩] :=
  (C1_amended_reconciliation 99 50
    [⟨1, false, [⟨50, 1, false⟩, ⟨10, 5, false⟩]⟩, ⟨2, false, []⟩] [10] (by decide)).1

theorem aggregatePass_fst_cons_eq (ign v t : Nat) (ts : List Nat) (members : List Member)
    (cm : List Nat) :
    (aggregatePass ign v members (t :: ts) cm).1
      = (⟨t, (newIds ign t v cm members).length, newIds ign t v cm members⟩ : RoleEntry) ::
        (aggregatePass ign v members ts (cm ++ newIds ign t v cm members)).1 := by
  simp only [aggregatePass_fst_cons, countMembersWithHighestRole_eq]

theorem aggregatePass_memberIds_not_in_cm (ign v : Nat) (members : List Member) :
    ∀ (tracked cm : List Nat), ∀ e ∈ (aggregatePass ign v members tracked cm).1,
      ∀ x ∈ e.memberIds, x ∉ cm := by
  intro tracked
  induction tracked with
  | nil =>
    intro cm e he
    have h0 : (aggregatePass ign v members [] cm).1 = [] := rfl
    rw [h0] at he
    cases he
  | cons t ts ih =>
    intro cm e he x hx
    rw [aggregatePass_fst_cons_eq] at he
    rcases List.mem_cons.mp he with h2 | h2
    · subst h2
      exact newIds_not_mem ign t v members cm x hx
    · intro hmem
      exact ih (cm ++ newIds ign t v cm members) e h2 x hx
        (List.mem_append_left _ hmem)

theorem aggregatePass_disjoint (ign v : Nat) (members : List Member) :
    ∀ (tracked cm : List Nat),
      List.Pairwise (fun e1 e2 => ∀ x ∈ e1.memberIds, x ∉ e2.memberIds)
        (aggregatePass ign v members tracked cm).1 := by
  intro tracked
  induction tracked with
  | nil =>
    intro cm
    have h0 : (aggregatePass ign v members [] cm).1 = [] := rfl
    rw [h0]
    exact List.Pairwise.nil
  | cons t ts ih =>
    intro cm
    rw [aggregatePass_fst_cons_eq]
    refine List.pairwise_cons.mpr ⟨?_, ih (cm ++ newIds ign t v cm members)⟩
    intro e he x hx hmem
    exact aggregatePass_memberIds_not_in_cm ign v members ts
      (cm ++ newIds ign t v cm members) e he x hmem
      (List.mem_append_right _ hx)

theorem aggregatePass_buckets_nodup (ign v : Nat) (members : List Member) :
    ∀ (tracked cm : List Nat), ∀ e ∈ (aggregatePass ign v members tracked cm).1,
      e.memberIds.Nodup := by
  intro tracked
  induction tracked with
  | nil =>
    intro cm e he
    have h0 : (aggregatePass ign v members [] cm).1 = [] := rfl
    rw [h0] at he
    cases he
  | cons t ts ih =>
    intro cm e he
    rw [aggregatePass_fst_cons_eq] at he
    rcases List.mem_cons.mp he with h2 | h2
    · subst h2
      exact newIds_nodup ign t v members cm
    · exact ih (cm ++ newIds ign t v cm members) e h2

/-- C2 (counterexample): the index8.js count command (lines 555-568) counts
by direct role membership with no claimed set, so one non-bot member holding
both tracked roles 10 and 20 is counted in both buckets, refuting the
no-double-counting claim for that cited pass. -/
theorem C2_counterexample_index8 :
    ¬ List.Pairwise (fun e1 e2 => ∀ x ∈ e1.memberIds, x ∉ e2.memberIds)
        (index8CountEntries [10, 20] [⟨1, [10, 20], false⟩] [10, 20]) := by
  decide

/-- C2 (amended): in the claimed-set aggregation passes built on
`countMembersWithHighestRole` (index6.js lines 262-304 and 414-433, part_002
lines 599-637 and 752-768), no member id occurs in more than one per-role
bucket of a single pass — the buckets are pairwise disjoint and each bucket
is duplicate-free — for every snapshot, tracked list and starting claimed
set; the index8.js count command has no claimed set and violates this. -/
theorem C2_amended_no_double_counting (ign v : Nat) (members : List Member)
    (tracked cm : List Nat) :
    List.Pairwise (fun e1 e2 => ∀ x ∈ e1.memberIds, x ∉ e2.memberIds)
        (aggregatePass ign v members tracked cm).1 ∧
    ∀ e ∈ (aggregatePass ign v members tracked cm).1, e.memberIds.Nodup :=
  ⟨aggregatePass_disjoint ign v members tracked cm,
   aggregatePass_buckets_nodup ign v members tracked cm⟩

/-- C3 (confirmed): for a member with roles, `getEffectiveRole` returns a
maximal-position role; when that maximal role is the ignored role it instead
returns a maximal-position role among the remaining non-ignored roles, and
the stricter in-counting variant (`effRoleStrict`) additionally excludes
managed roles from the fallback; on roles A(pos 5), ignored(pos 10),
B(pos 3) the result is A. -/
theorem C3_effective_role_resolution (roles : List Role) (ign : Nat) (h e : Role) :
    (highestRole roles = some h → h ∈ roles ∧ ∀ r ∈ roles, r.position ≤ h.position) ∧
    (highestRole roles = some h → h.id ≠ ign → getEffectiveRole roles ign = some h) ∧
    (highestRole roles = some h → h.id = ign → getEffectiveRole roles ign = some e →
      e ∈ roles ∧ e.id ≠ ign ∧ ∀ r ∈ roles, r.id ≠ ign → r.position ≤ e.position) ∧
    (highestRole roles = some h → h.id = ign → effRoleStrict ign roles = some e →
      e ∈ roles ∧ e.id ≠ ign ∧ e.managed = false ∧
        ∀ r ∈ roles, r.id ≠ ign → r.managed = false → r.position ≤ e.position) ∧
    getEffectiveRole [⟨1, 5, false⟩, ⟨2, 10, false⟩, ⟨3, 3, false⟩] 2
      = some ⟨1, 5, false⟩ := by
  refine ⟨?_, ?_, ?_, ?_, by decide⟩
  · intro hh
    exact highestRole_spec hh
  · intro hh hne
    simp only [getEffectiveRole, hh, if_neg hne]
  · intro hh hig heq
    have hform : getEffectiveRole roles ign
        = sortDescFirst (roles.filter (fun r => r.id != ign)) := by
      simp only [getEffectiveRole, hh, if_pos hig]
    rw [hform] at heq
    obtain ⟨hmem, hmax⟩ := sortDescFirst_spec heq
    obtain ⟨hroles, hp⟩ := List.mem_filter.mp hmem
    refine ⟨hroles, by simpa using hp, ?_⟩
    intro r hr hrne
    exact hmax r (List.mem_filter.mpr ⟨hr, by simpa using hrne⟩)
  · intro hh hig heq
    have hform : effRoleStrict ign roles
        = sortDescFirst (roles.filter (fun r => r.id != ign && !r.managed)) := by
      simp only [effRoleStrict, hh, if_pos hig]
    rw [hform] at heq
    obtain ⟨hmem, hmax⟩ := sortDescFirst_spec heq
    obtain ⟨hroles, hp⟩ := List.mem_filter.mp hmem
    have hp2 : e.id ≠ ign ∧ e.managed = false := by
      simpa [Bool.and_eq_true, Bool.not_eq_true'] using hp
    refine ⟨hroles, hp2.1, hp2.2, ?_⟩
    intro r hr hrne hrman
    exact hmax r (List.mem_filter.mpr ⟨hr, by simp [hrne, hrman]⟩)

/-- Witness for `C3_effective_role_resolution` at the concrete role list
A(id 1, pos 5), ignored(id 2, pos 10), B(id 3, pos 3). -/
theorem C3_effective_role_resolution_witness :
    getEffectiveRole [⟨1, 5, false⟩, ⟨2, 10, false⟩, ⟨3, 3, false⟩] 2
        = some ⟨1, 5, false⟩ ∧
    (⟨1, (5 : Int), false⟩ : Role) ∈
        ([⟨1, 5, false⟩, ⟨2, 10, false⟩, ⟨3, 3, false⟩] : List Role) ∧
    (∀ r ∈ ([⟨1, 5, false⟩, ⟨2, 10, false⟩, ⟨3, 3, false⟩] : List Role),
      r.id ≠ 2 → r.position ≤ (5 : Int)) := by
  have hmain := C3_effective_role_resolution
    [⟨1, 5, false⟩, ⟨2, 10, false⟩, ⟨3, 3, false⟩] 2 ⟨2, 10, false⟩ ⟨1, 5, false⟩
  have hpart := hmain.2.2.1 (by decide) (by decide) (by decide)
  exact ⟨hmain.2.2.2.2, hpart.1, hpart.2.2⟩

theorem filter_filter_of_imp {α : Type} (p q : α → Bool)
    (himp : ∀ x, q x = true → p x = true) :
    ∀ l : List α, (l.filter p).filter q = l.filter q := by
  intro l
  induction l with
  | nil => simp
  | cons a t ih =>
    cases hq : q a
    · cases hp : p a
      · simp [List.filter_cons, hp, hq, ih]
      · simp [List.filter_cons, hp, hq, ih]
    · have hp := himp a hq
      simp [List.filter_cons, hp, hq, ih]

theorem countStep_bot (ign roleId v : Nat) (acc : CountResult) (m : Member)
    (hb : m.isBot = true) : countStep ign roleId v acc m = acc := by
  simp [countStep, hb]

theorem countRun_filter_bots (ign roleId v : Nat) :
    ∀ (ms : List Member) (acc : CountResult),
      countRun ign roleId v (ms.filter (fun m => !m.isBot)) acc
        = countRun ign roleId v ms acc := by
  intro ms
  induction ms with
  | nil => intro acc; simp
  | cons m ms ih =>
    intro acc
    cases hb : m.isBot
    · rw [List.filter_cons]
      simp only [hb, Bool.not_false, if_true]
      rw [countRun, countRun]
      exact ih (countStep ign roleId v acc m)
    · rw [List.filter_cons]
      simp only [hb, Bool.not_true, if_false]
      rw [countRun, countStep_bot ign roleId v acc m hb]
      exact ih acc

/-- C4 (counterexample): the per-role filter of the index.js count handler
(lines 51-70) never tests `isBot`, so a bot whose highest role is the
requested role is counted: a snapshot holding exactly one member, a bot with
role 10, yields a per-role count of 1. -/
theorem C4_counterexample_bot_counted :
    indexJsRoleCount 99 [⟨1, true, [⟨10, 5, false⟩]⟩] 10 = 1 ∧
    (⟨1, true, [⟨10, 5, false⟩]⟩ : Member).isBot = true := by
  decide

/-- C4 (amended): the total member count, the unverified count,
`getRoleMemberCount` of index7.js and `countMembersWithHighestRole` depend
only on the non-bot members — removing every bot from the snapshot changes
none of them; the inline per-role filters of index.js, the first index6.js
program, part_001 and part_003 apply no bot check, so bots can be counted
there. -/
theorem C4_amended_bot_exclusion (ign v roleId : Nat) (members : List Member)
    (cm : List Nat) :
    getRoleMemberCount ign (members.filter (fun m => !m.isBot)) roleId
        = getRoleMemberCount ign members roleId ∧
    totalMembers (members.filter (fun m => !m.isBot)) = totalMembers members ∧
    unverifiedCount (members.filter (fun m => !m.isBot)) v = unverifiedCount members v ∧
    countMembersWithHighestRole ign (members.filter (fun m => !m.isBot)) roleId v cm
        = countMembersWithHighestRole ign members roleId v cm := by
  refine ⟨?_, ?_, ?_, ?_⟩
  · rw [getRoleMemberCount, getRoleMemberCount,
      filter_filter_of_imp (fun m => !m.isBot)
        (fun m => !m.isBot && highestRoleMatches ign roleId m)
        (fun m h => by
          cases hb : m.isBot
          · simp [hb]
          · simp [hb] at h) members]
  · rw [totalMembers, totalMembers,
      filter_filter_of_imp (fun m => !m.isBot) (fun m => !m.isBot)
        (fun m h => h) members]
  · rw [unverifiedCount, unverifiedCount,
      filter_filter_of_imp (fun m => !m.isBot)
        (fun m => !(isVerifiedMember v m) && !m.isBot)
        (fun m h => by
          cases hb : m.isBot
          · simp [hb]
          · simp [hb] at h) members]
  · rw [countMembersWithHighestRole, countMembersWithHighestRole,
      countRun_filter_bots ign roleId v members]

/-- C5 (code evidence): `utils.calculatePercentage` and the inline percentage
computations divide by the total with no zero guard, so a zero total produces
a non-finite value (`none`, the model of JavaScript NaN/Infinity) for every
part — never the defined 0-or-sentinel value the specification requires. -/
theorem C5_zero_total_divides_by_zero :
    calculatePercentage 0 0 = none ∧ ∀ p : ℚ, calculatePercentage p 0 = none := by
  constructor
  · simp [calculatePercentage, jsDiv]
  · intro p
    simp [calculatePercentage, jsDiv]

/-- C6 (confirmed): when the ignored role is a member's only role the
resolver returns none; more generally, when every role is the ignored one
(or, in the strict variant, when the highest role is ignored and every role
is ignored or managed) the resolver returns none, and a member whose strict
effective role is none is credited to no tracked role by
`countMembersWithHighestRole`. -/
theorem C6_ignored_only_role_none (ign : Nat) (r : Role) (roles : List Role)
    (members : List Member) (roleId v : Nat) (cm : List Nat) (x : Nat) :
    (r.id = ign → getEffectiveRole [r] ign = none) ∧
    ((∀ s ∈ roles, s.id = ign) → getEffectiveRole roles ign = none) ∧
    (∀ h : Role, highestRole roles = some h → h.id = ign →
      (∀ s ∈ roles, s.id = ign ∨ s.managed = true) → effRoleStrict ign roles = none) ∧
    ((∀ m ∈ members, m.id = x → effRoleStrict ign m.roles = none) →
      x ∉ (countMembersWithHighestRole ign members roleId v cm).memberIds) := by
  refine ⟨?_, ?_, ?_, ?_⟩
  · intro hr
    have h1 : highestRole [r] = some r := rfl
    have hfil : ([r] : List Role).filter (fun s => s.id != ign) = [] := by
      rw [List.filter_eq_nil_iff]
      intro s hs
      simp at hs
      subst hs
      simp [hr]
    simp only [getEffectiveRole, h1, if_pos hr, hfil]
    rfl
  · intro hall
    cases hr : highestRole roles with
    | none =>
      have hnil : roles = [] := (highestRole_none_iff roles).mp hr
      subst hnil
      rfl
    | some h =>
      have hmem := (highestRole_spec hr).1
      have hid := hall h hmem
      have hfil : roles.filter (fun s => s.id != ign) = [] := by
        rw [List.filter_eq_nil_iff]
        intro s hs
        simp [hall s hs]
      simp only [getEffectiveRole, hr, if_pos hid, hfil]
      rfl
  · intro h hr hid hall
    have hfil : roles.filter (fun s => s.id != ign && !s.managed) = [] := by
      rw [List.filter_eq_nil_iff]
      intro s hs
      rcases hall s hs with h1 | h1 <;> simp [h1]
    simp only [effRoleStrict, hr, if_pos hid, hfil]
    rfl
  · intro hall hx
    rw [countMembersWithHighestRole_eq] at hx
    obtain ⟨m, hm, hid, hbot, hv, heff⟩ := mem_newIds ign roleId v members cm x hx
    have hnone := hall m hm hid
    rw [effIdEq, hnone] at heff
    cases heff

/-- Witness for `C6_ignored_only_role_none`: a member whose only role (id 7)
is the ignored role resolves to none. -/
theorem C6_ignored_only_role_none_witness :
    getEffectiveRole [⟨7, 3, false⟩] 7 = none :=
  (C6_ignored_only_role_none 7 ⟨7, 3, false⟩ [] [] 0 0 [] 0).1 rfl

theorem filterMap_skip {α β : Type} (f : α → Option β) (pre post : List α) (a : α)
    (h : f a = none) :
    (pre ++ a :: post).filterMap f = (pre ++ post).filterMap f := by
  rw [List.filterMap_append, List.filterMap_append, List.filterMap_cons, h]

/-- C7 (confirmed): a tracked role id absent from the role catalogue is
skipped by the count handlers of index6.js (lines 171-175) and index9.js
(lines 243-245): the report is the same as if the id had not been tracked at
all, the remaining tracked roles are still processed, and every produced
entry names a role that exists in the catalogue — the missing id never
appears. -/
theorem C7_missing_role_skipped (ign : Nat) (catalogue : List Nat)
    (members : List Member) (smembers : List SimpleMember) (pre post : List Nat)
    (badId : Nat) (h : badId ∉ catalogue) :
    index6CountEntries ign catalogue members (pre ++ badId :: post)
        = index6CountEntries ign catalogue members (pre ++ post) ∧
    index9CountEntries catalogue smembers (pre ++ badId :: post)
        = index9CountEntries catalogue smembers (pre ++ post) ∧
    (∀ e ∈ index6CountEntries ign catalogue members (pre ++ badId :: post),
      e.roleId ∈ catalogue) ∧
    (∀ e ∈ index9CountEntries catalogue smembers (pre ++ badId :: post),
      e.roleId ∈ catalogue) := by
  have hc : catalogue.contains badId = false := by simpa using h
  refine ⟨?_, ?_, ?_, ?_⟩
  · rw [index6CountEntries, index6CountEntries]
    exact filterMap_skip _ pre post badId (by rw [hc]; rfl)
  · rw [index9CountEntries, index9CountEntries]
    exact filterMap_skip _ pre post badId (by rw [hc]; rfl)
  · intro e he
    rw [index6CountEntries] at he
    obtain ⟨a, ha, hfa⟩ := List.mem_filterMap.mp he
    by_cases hca : catalogue.contains a = true
    · rw [if_pos hca] at hfa
      have heq := Option.some.inj hfa
      have : e.roleId = a := by rw [← heq]
      rw [this]
      simpa using hca
    · rw [if_neg hca] at hfa
      cases hfa
  · intro e he
    rw [index9CountEntries] at he
    obtain ⟨a, ha, hfa⟩ := List.mem_filterMap.mp he
    by_cases hca : catalogue.contains a = true
    · rw [if_pos hca] at hfa
      have heq := Option.some.inj hfa
      have : e.roleId = a := by rw [← heq]
      rw [this]
      simpa using hca
    · rw [if_neg hca] at hfa
      cases hfa

/-- Witness for `C7_missing_role_skipped`: tracked ids [10, 99, 20] with id
99 missing from catalogue [10, 20] produce the same report as [10, 20]. -/
theorem C7_missing_role_skipped_witness :
    index6CountEntries 5 [10, 20] [⟨1, false, [⟨10, 2, false⟩]⟩] ([10] ++ 99 :: [20])
      = index6CountEntries 5 [10, 20] [⟨1, false, [⟨10, 2, false⟩]⟩] ([10] ++ [20]) :=
  (C7_missing_role_skipped 5 [10, 20] [⟨1, false, [⟨10, 2, false⟩]⟩]
    [] [10] [20] 99 (by decide)).1

theorem boolPartUnion : ∀ b w : Bool, ((!w && !b) || (!b && w)) = !b := by
  decide

theorem boolPartDisj : ∀ b w : Bool, ¬((!w && !b) = true ∧ (!b && w) = true) := by
  decide

theorem verifiedMemberCount_eq_countP (members : List Member) (v : Nat) :
    verifiedMemberCount members v
      = members.countP (fun m => !m.isBot && isVerifiedMember v m) := by
  rw [verifiedMemberCount, List.countP_eq_length_filter]

/-- C8 (confirmed): the unverified count is a direct membership test on each
member's assigned role-id set — it equals the number of non-bot members whose
role-id list lacks the verified role id, it partitions the non-bot members
together with the verified count, and it is unchanged by any reassignment of
role positions and managed flags (the inputs of effective-role resolution)
that preserves role ids. -/
theorem C8_unverified_is_direct_membership (members : List Member) (v : Nat) :
    unverifiedCount members v + verifiedMemberCount members v = totalMembers members ∧
    unverifiedCount members v
        = members.countP (fun m => !m.isBot && !((m.roles.map Role.id).contains v)) ∧
    (∀ f : Role → Role, (∀ r, (f r).id = r.id) →
      unverifiedCount (members.map (fun m => ⟨m.id, m.isBot, m.roles.map f⟩)) v
        = unverifiedCount members v) := by
  refine ⟨?_, ?_, ?_⟩
  · rw [unverifiedCount_eq_countP, verifiedMemberCount_eq_countP, totalMembers_eq_countP]
    rw [← countP_or_disjoint _ _ members
      (fun m _ => boolPartDisj m.isBot (isVerifiedMember v m))]
    apply countP_congr_mem
    intro m hm
    exact boolPartUnion m.isBot (isVerifiedMember v m)
  · rw [unverifiedCount_eq_countP]
    apply countP_congr_mem
    intro m hm
    simp only [isVerifiedMember]
    exact Bool.and_comm _ _
  · intro f hf
    rw [unverifiedCount_eq_countP, unverifiedCount_eq_countP, List.countP_map]
    apply countP_congr_mem
    intro m hm
    have hroles : (m.roles.map f).map Role.id = m.roles.map Role.id := by
      rw [List.map_map]
      exact List.map_congr_left (fun r _ => hf r)
    simp [Function.comp, isVerifiedMember, hroles]

/-- Witness for `C8_unverified_is_direct_membership` (for its inner
position-reassignment hypothesis) at a concrete snapshot and the identity
reassignment. -/
theorem C8_unverified_is_direct_membership_witness :
    unverifiedCount ([⟨1, false, [⟨9, 2, false⟩]⟩] : List Member) 50
        + verifiedMemberCount ([⟨1, false, [⟨9, 2, false⟩]⟩] : List Member) 50
      = totalMembers ([⟨1, false, [⟨9, 2, false⟩]⟩] : List Member) ∧
    unverifiedCount
        (([⟨1, false, [⟨9, 2, false⟩]⟩] : List Member).map
          (fun m => ⟨m.id, m.isBot, m.roles.map (fun r => ⟨r.id, r.position + 1, true⟩)⟩)) 50
      = unverifiedCount ([⟨1, false, [⟨9, 2, false⟩]⟩] : List Member) 50 := by
  have hmain := C8_unverified_is_direct_membership ([⟨1, false, [⟨9, 2, false⟩]⟩]) 50
  exact ⟨hmain.1, hmain.2.2 (fun r => ⟨r.id, r.position + 1, true⟩) (fun r => rfl)⟩

/-- C9 (confirmed): the index7.js count handler's output is independent of
the inter-call mutable `stats` state — `stats.clear()` at the start of the
handler (line 192) and the reassignment of `stats.totalMembers` erase all
state a previous invocation could have left — so two calls on the same
snapshot produce identical replies, and a repeat call starting from the
final stats of a first call reproduces the first reply exactly. -/
theorem C9_deterministic_aggregation (ign v : Nat) (catalogue : List Nat)
    (members : List Member) (tracked : List Nat) (s1 s2 : MemberStats) :
    (index7Handler ign v catalogue members tracked s1).1
        = (index7Handler ign v catalogue members tracked s2).1 ∧
    (index7Handler ign v catalogue members tracked
        (index7Handler ign v catalogue members tracked s1).2).1
      = (index7Handler ign v catalogue members tracked s1).1 := by
  have hkey : ∀ t1 t2 : MemberStats,
      index7Handler ign v catalogue members tracked t1
        = index7Handler ign v catalogue members tracked t2 := by
    intro t1 t2
    rfl
  exact ⟨congrArg Prod.fst (hkey s1 s2),
    congrArg Prod.fst (hkey (index7Handler ign v catalogue members tracked s1).2 s1)⟩

theorem mem_cm_append_newIds (ign roleId v : Nat) :
    ∀ (members : List Member) (cm : List Nat) (m : Member), m ∈ members →
      m.isBot = false → isVerifiedMember v m = true → effIdEq ign roleId m = true →
      m.id ∈ cm ++ newIds ign roleId v cm members := by
  intro members
  induction members with
  | nil => intro cm m hm; cases hm
  | cons m0 ms ih =>
    intro cm m hm hb hv he
    by_cases h0 : eligible ign roleId v cm m0 = true
    · rw [newIds, if_pos h0]
      rcases List.mem_cons.mp hm with h1 | h1
      · subst h1
        exact List.mem_append_right _ (List.mem_cons_self _ _)
      · have hrec := ih (cm ++ [m0.id]) m h1 hb hv he
        rw [List.append_cons]
        exact hrec
    · rw [newIds, if_neg h0]
      rcases List.mem_cons.mp hm with h1 | h1
      · subst h1
        have hc : cm.contains m.id = true := by
          by_contra hcc
          have hcf : cm.contains m.id = false := by
            cases hcm2 : cm.contains m.id
            · rfl
            · exact absurd hcm2 hcc
          have hnm : m.id ∉ cm := by simpa using hcf
          exact h0 (by simp [eligible, hb, hv, he, hnm])
        have hmem : m.id ∈ cm := by simpa using hc
        exact List.mem_append_left _ hmem
      · exact ih cm m h1 hb hv he

theorem newIds_nil_of_all_claimed (ign roleId v : Nat) :
    ∀ (members : List Member) (cm : List Nat),
      (∀ m ∈ members, m.isBot = false → isVerifiedMember v m = true →
        effIdEq ign roleId m = true → m.id ∈ cm) →
      newIds ign roleId v cm members = [] := by
  intro members
  induction members with
  | nil => intro cm _; rfl
  | cons m0 ms ih =>
    intro cm hyp
    have h0 : ¬(eligible ign roleId v cm m0 = true) := by
      intro heg
      obtain ⟨hb, hnc, hv, he⟩ := eligible_parts heg
      exact hnc (hyp m0 (List.mem_cons_self m0 ms) hb hv he)
    rw [newIds, if_neg h0]
    exact ih cm (fun m hm hb hv he => hyp m (List.mem_cons_of_mem m0 hm) hb hv he)

/-- C10 (confirmed): `countMembersWithHighestRole` extends the caller's
claimed set with exactly the ids of the members it counts (the mutation of
the `countedMembers` argument, made explicit in the returned state), and a
second call with the same snapshot, the same role id and the mutated set
counts nobody: its count is 0. -/
theorem C10_claimed_set_mutation (ign v roleId : Nat) (members : List Member)
    (cm : List Nat) :
    (countMembersWithHighestRole ign members roleId v cm).countedMembers
        = cm ++ (countMembersWithHighestRole ign members roleId v cm).memberIds ∧
    (countMembersWithHighestRole ign members roleId v
        (countMembersWithHighestRole ign members roleId v cm).countedMembers).count
      = 0 := by
  have h1 : (countMembersWithHighestRole ign members roleId v cm).countedMembers
      = cm ++ newIds ign roleId v cm members := by
    rw [countMembersWithHighestRole_eq]
  constructor
  · rw [countMembersWithHighestRole_eq]
  · rw [h1, countMembersWithHighestRole_eq]
    have hnil : newIds ign roleId v (cm ++ newIds ign roleId v cm members) members
        = [] := by
      apply newIds_nil_of_all_claimed
      intro m hm hb hv he
      exact mem_cm_append_newIds ign roleId v members cm m hm hb hv he
    simp [hnil]

/-- Witness for `C2_amended_no_double_counting` at a concrete snapshot. -/
theorem C2_amended_no_double_counting_witness :
    List.Pairwise (fun e1 e2 => ∀ x ∈ e1.memberIds, x ∉ e2.memberIds)
      (aggregatePass 99 50 [⟨1, false, [⟨50, 1, false⟩, ⟨10, 5, false⟩]⟩]
        [10, 20] []).1 :=
  (C2_amended_no_double_counting 99 50
    [⟨1, false, [⟨50, 1, false⟩, ⟨10, 5, false⟩]⟩] [10, 20] []).1

/-- Witness for `C4_amended_bot_exclusion` at a concrete snapshot with one
bot and one human. -/
theorem C4_amended_bot_exclusion_witness :
    getRoleMemberCount 99
        (([⟨1, true, [⟨10, 5, false⟩]⟩, ⟨2, false, [⟨10, 5, false⟩]⟩] : List Member).filter
          (fun m => !m.isBot)) 10
      = getRoleMemberCount 99
          [⟨1, true, [⟨10, 5, false⟩]⟩, ⟨2, false, [⟨10, 5, false⟩]⟩] 10 :=
  (C4_amended_bot_exclusion 99 50 10
    [⟨1, true, [⟨10, 5, false⟩]⟩, ⟨2, false, [⟨10, 5, false⟩]⟩] []).1

/-- Witness for `C5_zero_total_divides_by_zero` at part 5, total 0. -/
theorem C5_zero_total_divides_by_zero_witness :
    calculatePercentage 5 0 = none :=
  C5_zero_total_divides_by_zero.2 5

/-- Witness for `C9_deterministic_aggregation` at a concrete snapshot and
two different incoming stats states. -/
theorem C9_deterministic_aggregation_witness :
    (index7Handler 99 50 [10] [⟨1, false, [⟨10, 5, false⟩]⟩] [10]
        ⟨7, [3], [(1, 2)]⟩).1
      = (index7Handler 99 50 [10] [⟨1, false, [⟨10, 5, false⟩]⟩] [10]
          ⟨0, [], []⟩).1 :=
  (C9_deterministic_aggregation 99 50 [10] [⟨1, false, [⟨10, 5, false⟩]⟩] [10]
    ⟨7, [3], [(1, 2)]⟩ ⟨0, [], []⟩).1

/-- Witness for `C10_claimed_set_mutation` at a concrete snapshot: the second
call with the mutated set counts nobody. -/
theorem C10_claimed_set_mutation_witness :
    (countMembersWithHighestRole 99 [⟨1, false, [⟨50, 1, false⟩, ⟨10, 5, false⟩]⟩] 10 50
        (countMembersWithHighestRole 99 [⟨1, false, [⟨50, 1, false⟩, ⟨10, 5, false⟩]⟩]
          10 50 []).countedMembers).count = 0 :=
  (C10_claimed_set_mutation 99 50 10
    [⟨1, false, [⟨50, 1, false⟩, ⟨10, 5, false⟩]⟩] []).2
